import Mathlib

/-!
# Formal model of the EDDN Relay and Monitor (jcjveraa/EDDN)

A shallow embedding of `src/eddn/Relay.py` and `src/eddn/Monitor.py`.
Bytes are modelled as `List Nat` (each element a byte value), machine
words as `Nat` reduced modulo `2 ^ 32` where the source relies on
32-bit overflow.  Library calls of the Python runtime that the
repository merely invokes (zlib, simplejson parsing, the duplicate
cache) are taken as explicit function parameters; everything the
repository itself computes (the SHA-1 pseudonym, the JSON
re-serialisation with sorted keys, the frame splitting, the control
flow of the workers) is defined concretely below.
-/

set_option autoImplicit false
set_option maxRecDepth 200000

namespace EDDN

/-! ## Hexadecimal rendering -/

/-- The lowercase hexadecimal digit character for a value below 16. -/
def hexDigit (n : Nat) : Char :=
  if n < 10 then Char.ofNat (48 + n) else Char.ofNat (87 + n)

/-- Fixed-width lowercase hexadecimal rendering: exactly `k` digits,
most significant first, zero padded. -/
def hexFixed : Nat → Nat → List Char
  | 0, _ => []
  | k + 1, n => hexFixed k (n / 16) ++ [hexDigit (n % 16)]

/-- Lowercase hexadecimal numeral for `n` (at least one digit), as
CPython prints `id`-based addresses in object reprs. -/
def natHex (n : Nat) : String :=
  String.mk (Nat.toDigits 16 n)

/-- A lowercase hexadecimal character. -/
def isHexChar (c : Char) : Bool :=
  (48 ≤ c.toNat && c.toNat ≤ 57) || (97 ≤ c.toNat && c.toNat ≤ 102)

/-- Every character of a string is a lowercase hexadecimal digit. -/
def isHexString (s : String) : Bool :=
  s.data.all isHexChar

/-! ## UTF-8 encoding (model of Python `str.encode` for `utf8`) -/

/-- The UTF-8 encoding of a single code point, as a list of byte
values. -/
def encodeCharUtf8 (c : Char) : List Nat :=
  let n := c.toNat
  if n < 0x80 then [n]
  else if n < 0x800 then
    [0xC0 ||| (n >>> 6), 0x80 ||| (n &&& 0x3F)]
  else if n < 0x10000 then
    [0xE0 ||| (n >>> 12), 0x80 ||| ((n >>> 6) &&& 0x3F), 0x80 ||| (n &&& 0x3F)]
  else
    [0xF0 ||| (n >>> 18), 0x80 ||| ((n >>> 12) &&& 0x3F),
     0x80 ||| ((n >>> 6) &&& 0x3F), 0x80 ||| (n &&& 0x3F)]

/-- Model of Python `s.encode("utf8")`: the UTF-8 bytes of a string. -/
def utf8Bytes (s : String) : List Nat :=
  s.data.foldr (fun c acc => encodeCharUtf8 c ++ acc) []

/-! ## SHA-1 (model of `hashlib.sha1`)

The Relay derives the published uploader pseudonym with
`hashlib.sha1(...).hexdigest()`; we implement SHA-1 concretely so
that pseudonyms can be evaluated and their shape proved. -/

/-- Truncation to a 32-bit word. -/
def w32 (n : Nat) : Nat := n % 2 ^ 32

/-- Left rotation of a 32-bit word. -/
def rotl (s n : Nat) : Nat :=
  w32 ((n <<< s) ||| (n >>> (32 - s)))

/-- SHA-1 padding: append `0x80`, zero bytes up to 56 mod 64, then the
original bit length as 8 big-endian bytes. -/
def sha1Pad (msg : List Nat) : List Nat :=
  let len := msg.length
  let zeros := (119 - len % 64) % 64
  let bitLen := len * 8
  msg ++ [0x80] ++ List.replicate zeros 0 ++
    ((List.range 8).map (fun k => (bitLen >>> (8 * (7 - k))) % 256))

/-- Split a byte list into 64-byte blocks (the padded input always has
a length that is a multiple of 64). -/
def chunk64 (xs : List Nat) : List (List Nat) :=
  (List.range (xs.length / 64)).map (fun i => (xs.drop (64 * i)).take 64)

/-- Big-endian 32-bit words of a block. -/
def blockWords (block : List Nat) : List Nat :=
  (List.range 16).map (fun i =>
    (block.getD (4 * i) 0) * 0x1000000 + (block.getD (4 * i + 1) 0) * 0x10000 +
    (block.getD (4 * i + 2) 0) * 0x100 + block.getD (4 * i + 3) 0)

/-- Extend the 16 words of a block to the 80-word message schedule. -/
def sha1Schedule (ws : List Nat) : List Nat :=
  (List.range 64).foldl
    (fun acc _ =>
      let n := acc.length
      acc ++ [rotl 1 (Nat.xor (Nat.xor (acc.getD (n - 3) 0) (acc.getD (n - 8) 0))
        (Nat.xor (acc.getD (n - 14) 0) (acc.getD (n - 16) 0)))])
    ws

/-- The complement of a 32-bit word. -/
def wnot (n : Nat) : Nat := Nat.xor n (2 ^ 32 - 1)

/-- One round of the SHA-1 compression function. -/
def sha1Round (st : Nat × Nat × Nat × Nat × Nat) (iw : Nat × Nat) :
    Nat × Nat × Nat × Nat × Nat :=
  let (a, b, c, d, e) := st
  let (i, w) := iw
  let f :=
    if i < 20 then Nat.lor (Nat.land b c) (Nat.land (wnot b) d)
    else if i < 40 then Nat.xor (Nat.xor b c) d
    else if i < 60 then Nat.lor (Nat.lor (Nat.land b c) (Nat.land b d)) (Nat.land c d)
    else Nat.xor (Nat.xor b c) d
  let k :=
    if i < 20 then 0x5A827999
    else if i < 40 then 0x6ED9EBA1
    else if i < 60 then 0x8F1BBCDC
    else 0xCA62C1D6
  let temp := w32 (rotl 5 a + f + e + k + w)
  (temp, a, rotl 30 b, c, d)

/-- Process one 64-byte block, updating the five-word state. -/
def sha1Block (h : Nat × Nat × Nat × Nat × Nat) (block : List Nat) :
    Nat × Nat × Nat × Nat × Nat :=
  let ws := sha1Schedule (blockWords block)
  let (a, b, c, d, e) := ws.enum.foldl sha1Round h
  let (h0, h1, h2, h3, h4) := h
  (w32 (h0 + a), w32 (h1 + b), w32 (h2 + c), w32 (h3 + d), w32 (h4 + e))

/-- The SHA-1 digest of a byte list, as five 32-bit words. -/
def sha1 (msg : List Nat) : Nat × Nat × Nat × Nat × Nat :=
  (chunk64 (sha1Pad msg)).foldl sha1Block
    (0x67452301, 0xEFCDAB89, 0x98BADCFE, 0x10325476, 0xC3D2E1F0)

/-- Model of `hashlib.sha1(bytes).hexdigest()`: the 40-character
lowercase hexadecimal digest. -/
def sha1Hex (msg : List Nat) : String :=
  let (a, b, c, d, e) := sha1 msg
  String.mk (hexFixed 8 a ++ hexFixed 8 b ++ hexFixed 8 c ++
    hexFixed 8 d ++ hexFixed 8 e)

/-! ## JSON values

The envelopes travelling over the bus are JSON objects; `simplejson`
parses them into Python dicts.  Objects are modelled as association
lists with the keys of a parsed JSON document (Python dicts have
unique keys; the operations below match dict semantics on such
lists).  JSON numbers are restricted to integers, which covers every
field the Relay and Monitor inspect. -/

inductive JVal where
  | jnull : JVal
  | jbool : Bool → JVal
  | jnum : Int → JVal
  | jstr : String → JVal
  | jarr : List JVal → JVal
  | jobj : List (String × JVal) → JVal

/-- Model of Python `key in dict`. -/
def dictMem (k : String) (d : List (String × JVal)) : Bool :=
  d.any (fun p => p.1 == k)

/-- Model of Python `dict[key]` (the value of the first matching
key). -/
def dictGet (k : String) (d : List (String × JVal)) : Option JVal :=
  (d.find? (fun p => p.1 == k)).map Prod.snd

/-- Model of Python `dict[key] = v`: replace the value in place when
the key is present, append otherwise. -/
def dictSet (k : String) (v : JVal) (d : List (String × JVal)) :
    List (String × JVal) :=
  if dictMem k d then d.map (fun p => if p.1 == k then (k, v) else p)
  else d ++ [(k, v)]

/-- Model of Python `del dict[key]` on a present key. -/
def dictDel (k : String) (d : List (String × JVal)) :
    List (String × JVal) :=
  d.filter (fun p => p.1 != k)

/-! ## JSON serialisation (model of `simplejson.dumps(obj, sort_keys=True)`)

Default `simplejson` settings: `ensure_ascii=True`, separators
`", "` and `": "`, and with `sort_keys=True` the keys of every object
are emitted in ascending string order. -/

/-- Four-digit hexadecimal rendering used by `\u` escapes. -/
def hex4 (n : Nat) : String := String.mk (hexFixed 4 n)

/-- The JSON escape of one character under `ensure_ascii=True`. -/
def jsonEscapeChar (c : Char) : String :=
  let n := c.toNat
  if c = '"' then "\\\""
  else if c = '\\' then "\\\\"
  else if n = 8 then "\\b"
  else if n = 12 then "\\f"
  else if n = 10 then "\\n"
  else if n = 13 then "\\r"
  else if n = 9 then "\\t"
  else if n < 0x20 then "\\u" ++ hex4 n
  else if n < 0x80 then String.mk [c]
  else if n < 0x10000 then "\\u" ++ hex4 n
  else "\\u" ++ hex4 (0xD800 + ((n - 0x10000) >>> 10)) ++
       "\\u" ++ hex4 (0xDC00 + ((n - 0x10000) &&& 0x3FF))

/-- JSON string escaping. -/
def jsonEscape (s : String) : String :=
  String.join (s.data.map jsonEscapeChar)

/-- Strict lexicographic comparison of character lists by code point,
the order Python uses to compare strings. -/
def charListLt : List Char → List Char → Bool
  | [], [] => false
  | [], _ :: _ => true
  | _ :: _, [] => false
  | c :: cs, d :: ds =>
    if c.toNat < d.toNat then true
    else if d.toNat < c.toNat then false
    else charListLt cs ds

/-- Key ordering used by `sort_keys=True`: `a` is at most `b` when
`b` is not strictly below `a`. -/
def keyLeB (a b : String × String) : Bool :=
  !charListLt b.1.data a.1.data

/-- Insert a rendered member into a key-sorted list. -/
def insertSorted (p : String × String) :
    List (String × String) → List (String × String)
  | [] => [p]
  | q :: qs => if keyLeB p q then p :: q :: qs else q :: insertSorted p qs

/-- Rendered object fields in ascending key order (insertion sort). -/
def sortRendered : List (String × String) → List (String × String)
  | [] => []
  | p :: ps => insertSorted p (sortRendered ps)

/-- One rendered `"key": value` member. -/
def renderMember (p : String × String) : String :=
  "\"" ++ jsonEscape p.1 ++ "\": " ++ p.2

mutual

/-- Model of `simplejson.dumps(v, sort_keys=True)`. -/
def dumps : JVal → String
  | .jnull => "null"
  | .jbool true => "true"
  | .jbool false => "false"
  | .jnum n => toString n
  | .jstr s => "\"" ++ jsonEscape s ++ "\""
  | .jarr xs => "[" ++ String.intercalate ", " (dumpsList xs) ++ "]"
  | .jobj fs =>
      "\x7b" ++
        String.intercalate ", " ((sortRendered (dumpsFields fs)).map renderMember) ++
      "\x7d"

/-- Serialisations of the elements of an array. -/
def dumpsList : List JVal → List String
  | [] => []
  | x :: xs => dumps x :: dumpsList xs

/-- Keys paired with the serialisations of their values. -/
def dumpsFields : List (String × JVal) → List (String × String)
  | [] => []
  | (k, v) :: fs => (k, dumps v) :: dumpsFields fs

end

/-! ## The Relay (`src/eddn/Relay.py`)

Time is modelled in whole seconds (`Nat`); `time.time()` values are
supplied as parameters.  Randomness (`uuid.uuid4()`) and object
identity (`id`, which CPython shows in bound-method reprs) are also
parameters: each call site receives the value the runtime would have
produced there. -/

namespace Relay

/-- Source constant `REGENERATE_UPLOADER_NONCE_INTERVAL = 12 * 60 * 60`. -/
def REGENERATE_UPLOADER_NONCE_INTERVAL : Nat := 12 * 60 * 60

/-- The mutable state of a `Relay` instance: `self.uploader_nonce`
and `self.uploader_nonce_timestamp`. -/
structure State where
  uploader_nonce : String
  uploader_nonce_timestamp : Nat

/-- Model of `Relay.generate_uploader_nonce`: store a fresh
`str(uuid.uuid4())` (the parameter `fresh`) and the current time. -/
def generate_uploader_nonce (fresh : String) (now : Nat) : State :=
  ⟨fresh, now⟩

/-- Model of Python `repr` on a string that contains no quote,
backslash or non-printable character (every `str(uuid.uuid4())` is of
this shape): the string wrapped in single quotes. -/
def pyReprStr (s : String) : String :=
  "\x27" ++ s ++ "\x27"

/-- Model of `str(u.encode)` for a Python string object `u` living at
address `addr`: the bound-method repr that CPython produces.  Note
that it shows the address of the string object, not its contents. -/
def encodeMethodRepr (addr : Nat) : String :=
  "<built-in method encode of str object at 0x" ++ natHex addr ++ ">"

/-- Model of `Relay.scramble_uploader`.  The source computes

`hashlib.sha1(f"{self.uploader_nonce!r}-{uploader.encode}".encode("utf8")).hexdigest()`

after lazily rotating the nonce; `uploader.encode` is the bound
method object (it is never called), so the f-string interpolates its
repr.  `addr` is the address of the `uploader` string object. -/
def scramble_uploader (st : State) (now : Nat) (fresh : String)
    (uploader : String) (addr : Nat) : State × String :=
  let st' :=
    if now - st.uploader_nonce_timestamp > REGENERATE_UPLOADER_NONCE_INTERVAL
    then generate_uploader_nonce fresh now
    else st
  (st', sha1Hex (utf8Bytes
    (pyReprStr st'.uploader_nonce ++ "-" ++ encodeMethodRepr addr)))

/-- Modelled from the spec: the intended pseudonym, the SHA-1 hex
digest of `nonce-bytes || ":" || uploaderID-bytes`.  The scrambling
formula itself is the part the spec documents as the intent of
`Relay.scramble_uploader`. -/
def spec_scramble_uploader (nonce uploader : String) : String :=
  sha1Hex (utf8Bytes nonce ++ utf8Bytes ":" ++ utf8Bytes uploader)

/-- The privacy transformation of `relay_worker` (source lines
115-122): scramble `header.uploaderID` when present, then delete
`header.uploaderIP` when present.  Returns `none` when the source
would raise (no `header` mapping, or an `uploaderID` without an
`encode` attribute, i.e. not a string). -/
def relay_transform (st : State) (now : Nat) (fresh : String) (addr : Nat) :
    JVal → Option (State × JVal)
  | .jobj fields =>
    match dictGet "header" fields with
    | some (.jobj header) =>
      match dictGet "uploaderID" header with
      | some (.jstr uploader) =>
          let (st', scrambled) := scramble_uploader st now fresh uploader addr
          let header1 := dictSet "uploaderID" (.jstr scrambled) header
          let header2 :=
            if dictMem "uploaderIP" header1 then dictDel "uploaderIP" header1
            else header1
          some (st', .jobj (dictSet "header" (.jobj header2) fields))
      | some _ => none
      | none =>
          let header2 :=
            if dictMem "uploaderIP" header then dictDel "uploaderIP" header
            else header
          some (st, .jobj (dictSet "header" (.jobj header2) fields))
    | _ => none
  | _ => none

/-- What one `relay_worker` call did: the frame sent on the public
bus (if any) and the `duplicate` / `outbound` tallies (0 or 1). -/
structure WorkerOutcome where
  sent : Option (List Nat)
  dupTally : Nat
  outTally : Nat

/-- Model of `relay_worker` (source lines 99-132).

Parameters standing for library calls and configuration:
`decompress` for `zlib.decompress` (`none` models raising),
`loads` for `simplejson.loads`,
`dupMax` for `Settings.RELAY_DUPLICATE_MAX_MINUTES` (the source
treats it as a truth value: the duplicate check runs iff it is
nonzero), `isDup` for `duplicate_messages.is_duplicated`, and
`compress` for `zlib.compress`.  An uncaught exception aborts the
worker greenlet with no tally and nothing sent. -/
def relay_worker (decompress : List Nat → Option (List Nat))
    (loads : List Nat → Option JVal) (dupMax : Nat) (isDup : JVal → Bool)
    (compress : List Nat → List Nat) (st : State) (now : Nat)
    (fresh : String) (addr : Nat) (message : List Nat) :
    WorkerOutcome × State :=
  match decompress message with
  | none => (⟨none, 0, 0⟩, st)
  | some message_text =>
    match loads message_text with
    | none => (⟨none, 0, 0⟩, st)
    | some json =>
      -- if Settings.RELAY_DUPLICATE_MAX_MINUTES: if is_duplicated(json): ...
      if dupMax ≠ 0 ∧ isDup json = true then (⟨none, 1, 0⟩, st)
      else
        match relay_transform st now fresh addr json with
        | none => (⟨none, 0, 0⟩, st)
        | some (st', json') =>
            let message' := compress (utf8Bytes (dumps json'))
            (⟨some message', 0, 1⟩, st')

end Relay

/-! ## The Monitor (`src/eddn/Monitor.py`) -/

namespace Monitor

/-- The topic separator `b" |-| "`. -/
def SEP : List Nat := [32, 124, 45, 124, 32]

/-- The first occurrence of `SEP` in a byte list: the bytes before it
and the bytes after it. -/
def findSep : List Nat → Option (List Nat × List Nat)
  | [] => none
  | x :: xs =>
    if SEP.isPrefixOf (x :: xs) then some ([], (x :: xs).drop 5)
    else (findSep xs).map (fun pp => (x :: pp.1, pp.2))

/-- Worker for `pySplit`.  The fuel only bounds the recursion depth;
`pySplit` always supplies enough (each cut strictly shortens the
remainder, see `findSep_post_length`), so the fuel case is never
taken. -/
def pySplitF : Nat → List Nat → List (List Nat)
  | 0, xs => [xs]
  | fuel + 1, xs =>
    match findSep xs with
    | none => [xs]
    | some (pre, post) => pre :: pySplitF fuel post

/-- Model of Python `message.split(b" |-| ")`: repeatedly cut at the
leftmost remaining occurrence of the separator. -/
def pySplit (xs : List Nat) : List (List Nat) :=
  pySplitF xs.length xs

/-- Source lines 193-200: `message_split = message.split(b" |-| ")`,
then `message = message_split[1]` when the split produced more than
one part, else `message = message_split[0]`. -/
def monitor_strip (message : List Nat) : List Nat :=
  let message_split := pySplit message
  if message_split.length > 1 then message_split.getD 1 []
  else message_split.getD 0 []

/-- Python 3 defines no addition of a `str` to a `bytes` value:
`bytes + str` raises `TypeError` (the Monitor builds `software_id`
as `softwareName.encode("utf8") + " | " + ...`).  Modelled as
`none`. -/
def bytesAddStr (_b : List Nat) (_s : String) : Option (List Nat) :=
  none

/-- Model of Python `j[k]` for a string key: `none` when the source
would raise (`KeyError`, or `TypeError` on a non-mapping). -/
def jsonDictGet (j : JVal) (k : String) : Option JVal :=
  match j with
  | .jobj fs => dictGet k fs
  | _ => none

/-- What one `monitor_worker` call did to the statistics database:
nothing (the worker raised), only the `schemas` upsert of the
duplicate branch, or the `softwares` upsert followed by the
`schemas` upsert. -/
inductive Outcome where
  | raised : Outcome
  | dupOnly : JVal → Outcome
  | counted : List Nat → JVal → Outcome

/-- Model of `monitor_worker` (source lines 186-254).  Library calls are
parameters as in `relay_worker`.  The `softwares` key is
`software_id` (bytes), the `schemas` key is the JSON value of
`$schemaRef` or the string `DUPLICATE MESSAGE` in the duplicate
branch.  Note the order of the source: `software_id` is computed
(line 207) before the duplicate check (line 211), and its
`bytes + str` concatenation raises in Python 3. -/
def monitor_worker (decompress : List Nat → Option (List Nat))
    (loads : List Nat → Option JVal) (dupMax : Nat) (isDup : JVal → Bool)
    (message : List Nat) : Outcome :=
  match decompress (monitor_strip message) with
  | none => .raised
  | some message_text =>
  match loads message_text with
  | none => .raised
  | some json =>
  match jsonDictGet json "$schemaRef" with
  | none => .raised
  | some schema_id =>
  match jsonDictGet json "header" with
  | none => .raised
  | some header =>
  match jsonDictGet header "softwareName" with
  | some (.jstr softwareName) =>
    -- software_id = softwareName.encode("utf8") + " | " + ...
    -- the left addition raises TypeError before softwareVersion is read
    match bytesAddStr (utf8Bytes softwareName) " | " with
    | none => .raised
    | some partial_id =>
      match jsonDictGet header "softwareVersion" with
      | some (.jstr softwareVersion) =>
        let software_id := partial_id ++ utf8Bytes softwareVersion
        if dupMax ≠ 0 ∧ isDup json = true then
          .dupOnly (.jstr "DUPLICATE MESSAGE")
        else
          .counted software_id schema_id
      | _ => .raised
  | _ => .raised

end Monitor

/-! ## The Relay receive loop (`Relay.run`, source lines 134-139)

The loop receives a frame, tallies `inbound`, and spawns a
`relay_worker` greenlet for it.  We model the observable counters and
the public bus as a state, with two kinds of atomic step: receiving a
frame (which enqueues a pending worker) and a pending worker
finishing (which applies its tallies and publishes its frame, if
any).  Workers may finish in any order. -/

namespace Relay

/-- A worker outcome that `relay_worker` can actually produce. -/
def IsWorkerOutcome (o : WorkerOutcome) : Prop :=
  ∃ decompress loads dupMax isDup compress st now fresh addr message st',
    relay_worker decompress loads dupMax isDup compress st now fresh addr
      message = (o, st')

/-- The observable state of a running Relay: the three counters, the
outcomes of spawned but unfinished workers, and the frames published
on the public bus so far. -/
structure BusState where
  inbound : Nat
  outbound : Nat
  duplicate : Nat
  pending : List WorkerOutcome
  published : List (List Nat)

/-- The state at process start. -/
def initBus : BusState := ⟨0, 0, 0, [], []⟩

/-- One atomic step of the receive loop or of a worker greenlet. -/
inductive Step : BusState → BusState → Prop
  | recv (s : BusState) (o : WorkerOutcome) (h : IsWorkerOutcome o) :
      Step s ⟨s.inbound + 1, s.outbound, s.duplicate, o :: s.pending,
        s.published⟩
  | work (s : BusState) (l r : List WorkerOutcome) (o : WorkerOutcome)
      (h : s.pending = l ++ o :: r) :
      Step s ⟨s.inbound, s.outbound + o.outTally, s.duplicate + o.dupTally,
        l ++ r, s.published ++ o.sent.toList⟩

/-- Reachability from the initial state. -/
def Reachable (s : BusState) : Prop :=
  Relation.ReflTransGen Step initBus s

end Relay

/-! ## Helper accessors for stating envelope invariants -/

/-- The fields of the `header` object of an envelope, when the
envelope is an object with a `header` object member. -/
def headerFields (j : JVal) : Option (List (String × JVal)) :=
  match j with
  | .jobj fs =>
    match dictGet "header" fs with
    | some (.jobj h) => some h
    | _ => none
  | _ => none

/-- Whether `header.k` exists. -/
def headerHasKey (j : JVal) (k : String) : Bool :=
  match headerFields j with
  | some h => dictMem k h
  | none => false

/-- The value of `header.k`, when present. -/
def headerGet (j : JVal) (k : String) : Option JVal :=
  match headerFields j with
  | some h => dictGet k h
  | none => none

/-! ## Concrete fixtures (the literal envelope of spec scenario 1) -/

/-- The scenario-1 envelope, as parsed from the Gateway frame: the
Gateway has added `uploaderIP`. -/
def testEnvelope : JVal :=
  .jobj [("$schemaRef", .jstr "https://eddn.edcd.io/schemas/commodity/3"),
    ("header", .jobj [("softwareName", .jstr "EDMC"),
      ("softwareVersion", .jstr "5.0.0"),
      ("uploaderID", .jstr "Cmdr-Jameson"),
      ("uploaderIP", .jstr "10.0.0.1")]),
    ("message", .jobj [])]

/-- A Relay state: a uuid4 nonce installed at time 1700000000. -/
def testState : Relay.State :=
  ⟨"4ab96cf8-f6ee-4ecb-8b69-d54e8a4b90db", 1700000000⟩

/-- The address of the `uploaderID` string object in one worker
call. -/
def testAddr : Nat := 0x7f5c92e41a10

/-- The fields of `testEnvelope` after the Relay transformation at
time 1700000100 (inside the nonce window) with the uploader string
at `testAddr`: `uploaderID` is replaced by the digest the source
actually computes and `uploaderIP` is gone. -/
def testTransformedFields : List (String × JVal) :=
  [("$schemaRef", .jstr "https://eddn.edcd.io/schemas/commodity/3"),
    ("header", .jobj [("softwareName", .jstr "EDMC"),
      ("softwareVersion", .jstr "5.0.0"),
      ("uploaderID", .jstr "117ba79cbf523b6343249116a81b7822a3eebe1b")]),
    ("message", .jobj [])]

/-- The transformed envelope as a JSON value. -/
def testTransformed : JVal := .jobj testTransformedFields

/-- Stand-ins for the library calls in concrete runs: a codec that
decompresses every frame to `[0]`, a parser that parses `[0]` to the
scenario-1 envelope, duplicate oracles, and an identity
compressor. -/
def cDecompress : List Nat → Option (List Nat) := fun _ => some [0]

/-- See `cDecompress`. -/
def cLoads : List Nat → Option JVal := fun _ => some testEnvelope

/-- A duplicate-cache oracle that reports first-time for
everything. -/
def cIsDupFalse : JVal → Bool := fun _ => false

/-- A duplicate-cache oracle that reports a duplicate for
everything. -/
def cIsDupTrue : JVal → Bool := fun _ => true

/-- An identity stand-in for `zlib.compress`. -/
def cCompress : List Nat → List Nat := fun b => b

/-- A decompressor that raises on every frame (as `zlib.decompress`
does on a topic-prefixed frame). -/
def cDecompressFail : List Nat → Option (List Nat) := fun _ => none

/-- A parser that raises on every input. -/
def cLoadsFail : List Nat → Option JVal := fun _ => none

/-! ## Frame splitting lemmas -/

namespace Monitor

theorem findSep_post_length :
    ∀ (xs pre post : List Nat), findSep xs = some (pre, post) →
      post.length < xs.length := by
  intro xs
  induction xs with
  | nil => intro pre post h; simp [findSep] at h
  | cons x xs ih =>
    intro pre post h
    simp only [findSep] at h
    by_cases hp : SEP.isPrefixOf (x :: xs)
    · rw [if_pos hp, Option.some.injEq, Prod.mk.injEq] at h
      obtain ⟨h1, h2⟩ := h
      subst h2
      simp only [List.length_drop]
      exact Nat.sub_lt (by simp) (by decide)
    · rw [if_neg hp, Option.map_eq_some'] at h
      obtain ⟨⟨pre', post'⟩, hfs, hmap⟩ := h
      have hpost : post' = post := by
        have := congrArg Prod.snd hmap
        simpa using this
      subst hpost
      exact Nat.lt_succ_of_lt (ih _ _ hfs)

theorem pySplitF_congr :
    ∀ (f g : Nat) (xs : List Nat), xs.length ≤ f → xs.length ≤ g →
      pySplitF f xs = pySplitF g xs := by
  intro f
  induction f with
  | zero =>
    intro g xs hf hg
    have hxs : xs = [] := List.length_eq_zero.mp (Nat.le_zero.mp hf)
    subst hxs
    cases g with
    | zero => rfl
    | succ g => simp [pySplitF, findSep]
  | succ f ih =>
    intro g xs hf hg
    cases g with
    | zero =>
      have hxs : xs = [] := List.length_eq_zero.mp (Nat.le_zero.mp hg)
      subst hxs
      simp [pySplitF, findSep]
    | succ g =>
      simp only [pySplitF]
      cases hfs : findSep xs with
      | none => rfl
      | some pp =>
        obtain ⟨pre, post⟩ := pp
        have hlen := findSep_post_length xs pre post hfs
        have h1 : post.length ≤ f := by omega
        have h2 : post.length ≤ g := by omega
        show pre :: pySplitF f post = pre :: pySplitF g post
        rw [ih g post h1 h2]

theorem pySplit_of_findSep_none {xs : List Nat} (h : findSep xs = none) :
    pySplit xs = [xs] := by
  unfold pySplit
  cases hl : xs.length with
  | zero => rfl
  | succ n => simp [pySplitF, h]

theorem pySplit_of_findSep_some {xs pre post : List Nat}
    (h : findSep xs = some (pre, post)) :
    pySplit xs = pre :: pySplit post := by
  have hlen := findSep_post_length xs pre post h
  obtain ⟨n, hxl⟩ : ∃ n, xs.length = n + 1 := ⟨xs.length - 1, by omega⟩
  unfold pySplit
  rw [hxl]
  simp only [pySplitF, h]
  congr 1
  exact pySplitF_congr n post.length post (by omega) (Nat.le_refl _)

end Monitor

/-! ## Dictionary lemmas -/

theorem mapSet_any (k : String) (v : JVal) :
    ∀ d : List (String × JVal),
      ((d.map (fun p => if p.1 == k then (k, v) else p)).any
        (fun p => p.1 == k)) = d.any (fun p => p.1 == k) := by
  intro d
  induction d with
  | nil => rfl
  | cons p ps ih =>
    simp only [List.map_cons, List.any_cons, ih]
    by_cases hp : (p.1 == k) = true
    · rw [if_pos hp, hp]
      simp
    · rw [if_neg hp]

theorem dictMem_set_self (k : String) (v : JVal) (d : List (String × JVal)) :
    dictMem k (dictSet k v d) = true := by
  unfold dictSet
  by_cases hmem : dictMem k d
  · rw [if_pos hmem]
    unfold dictMem at hmem ⊢
    rw [mapSet_any]
    exact hmem
  · rw [if_neg hmem]
    unfold dictMem
    simp [List.any_append]

theorem bool_eq_false {b : Bool} (h : ¬ b = true) : b = false := by
  cases hb : b
  · rfl
  · exact absurd hb h

theorem mapSet_find (k : String) (v : JVal) :
    ∀ d : List (String × JVal), d.any (fun p => p.1 == k) = true →
      ((d.map (fun p => if p.1 == k then (k, v) else p)).find?
        (fun p => p.1 == k)) = some (k, v) := by
  intro d
  induction d with
  | nil => intro h; simp at h
  | cons p ps ih =>
    intro h
    simp only [List.map_cons]
    by_cases hp : (p.1 == k) = true
    · rw [if_pos hp]
      simp only [List.find?]
      have hk : ((k, v).1 == k) = true := by simp
      rw [hk]
    · rw [if_neg hp]
      have hp' := bool_eq_false hp
      simp only [List.find?, hp']
      apply ih
      simp only [List.any_cons, Bool.or_eq_true] at h
      rcases h with h | h
      · exact absurd h hp
      · exact h

theorem appendNew_find (k : String) (v : JVal) :
    ∀ d : List (String × JVal), d.any (fun p => p.1 == k) = false →
      ((d ++ [(k, v)]).find? (fun p => p.1 == k)) = some (k, v) := by
  intro d
  induction d with
  | nil =>
    intro _
    simp only [List.nil_append, List.find?]
    have hk : ((k, v).1 == k) = true := by simp
    rw [hk]
  | cons p ps ih =>
    intro h
    simp only [List.any_cons, Bool.or_eq_false_iff] at h
    rw [List.cons_append]
    simp only [List.find?, h.1]
    exact ih h.2

theorem dictGet_set_self (k : String) (v : JVal) (d : List (String × JVal)) :
    dictGet k (dictSet k v d) = some v := by
  unfold dictSet dictGet
  by_cases hmem : dictMem k d
  · rw [if_pos hmem]
    rw [mapSet_find k v d hmem]
    rfl
  · rw [if_neg hmem]
    rw [appendNew_find k v d (bool_eq_false hmem)]
    rfl

theorem delFilter_any_self (k : String) :
    ∀ d : List (String × JVal),
      ((d.filter (fun p => p.1 != k)).any (fun p => p.1 == k)) = false := by
  intro d
  induction d with
  | nil => rfl
  | cons p ps ih =>
    by_cases hp : (p.1 == k) = true
    · have hb : (p.1 != k) = false := by simp [bne, hp]
      simp only [List.filter, hb]
      exact ih
    · have hp' := bool_eq_false hp
      have hb : (p.1 != k) = true := by simp [bne, hp']
      simp only [List.filter, hb, List.any_cons, hp', ih, Bool.or_false]

theorem dictMem_del_self (k : String) (d : List (String × JVal)) :
    dictMem k (dictDel k d) = false :=
  delFilter_any_self k d

theorem beq_false_of_keys_ne {p1 k k2 : String} (hp : (p1 == k2) = true)
    (hne : (k == k2) = false) : (p1 == k) = false := by
  have h1 : p1 = k2 := by simpa using hp
  have h2 : ¬ (k = k2) := by simpa using hne
  subst h1
  simp only [beq_eq_false_iff_ne, ne_eq]
  intro hc
  exact h2 hc.symm

theorem dictMem_del_ne (k k2 : String) (hne : (k == k2) = false)
    (d : List (String × JVal)) :
    dictMem k (dictDel k2 d) = dictMem k d := by
  unfold dictMem dictDel
  induction d with
  | nil => rfl
  | cons p ps ih =>
    by_cases hp : (p.1 == k2) = true
    · have hpk := beq_false_of_keys_ne hp hne
      have hb : (p.1 != k2) = false := by simp [bne, hp]
      simp only [List.filter, hb, List.any_cons, hpk, Bool.false_or]
      exact ih
    · have hp' := bool_eq_false hp
      have hb : (p.1 != k2) = true := by simp [bne, hp']
      simp only [List.filter, hb, List.any_cons, ih]

theorem dictGet_del_ne (k k2 : String) (hne : (k == k2) = false)
    (d : List (String × JVal)) :
    dictGet k (dictDel k2 d) = dictGet k d := by
  unfold dictGet dictDel
  induction d with
  | nil => rfl
  | cons p ps ih =>
    by_cases hp : (p.1 == k2) = true
    · have hpk := beq_false_of_keys_ne hp hne
      have hb : (p.1 != k2) = false := by simp [bne, hp]
      simp only [List.filter, hb, List.find?, hpk]
      exact ih
    · have hp' := bool_eq_false hp
      have hb : (p.1 != k2) = true := by simp [bne, hp']
      by_cases hpk : (p.1 == k) = true
      · simp only [List.filter, hb, List.find?, hpk]
      · have hpk' := bool_eq_false hpk
        simp only [List.filter, hb, List.find?, hpk']
        exact ih

theorem dictGet_isSome_eq_dictMem (k : String) (d : List (String × JVal)) :
    (dictGet k d).isSome = dictMem k d := by
  unfold dictGet dictMem
  induction d with
  | nil => simp [List.find?]
  | cons p ps ih =>
    by_cases hp : p.1 == k
    · simp [List.find?, hp]
    · simpa [List.find?, hp] using ih

theorem dictGet_eq_none_of_not_mem (k : String) (d : List (String × JVal))
    (h : dictMem k d = false) : dictGet k d = none := by
  have h1 := dictGet_isSome_eq_dictMem k d
  rw [h] at h1
  exact Option.not_isSome_iff_eq_none.mp (by simp [h1])

theorem dictMem_of_get_some (k : String) (d : List (String × JVal))
    (v : JVal) (h : dictGet k d = some v) : dictMem k d = true := by
  have h1 := dictGet_isSome_eq_dictMem k d
  rw [h] at h1
  simpa using h1.symm

/-! ## Shape of SHA-1 hex digests -/

theorem hexFixed_length : ∀ (k n : Nat), (hexFixed k n).length = k := by
  intro k
  induction k with
  | zero => intro n; rfl
  | succ k ih => intro n; simp [hexFixed, ih]

theorem isHexChar_hexDigit (m : Nat) (h : m < 16) :
    isHexChar (hexDigit m) = true := by
  have haux : ∀ i : Fin 16, isHexChar (hexDigit i.1) = true := by decide
  exact haux ⟨m, h⟩

theorem hexFixed_all_hex :
    ∀ (k n : Nat) (c : Char), c ∈ hexFixed k n → isHexChar c = true := by
  intro k
  induction k with
  | zero => intro n c hc; simp [hexFixed] at hc
  | succ k ih =>
    intro n c hc
    simp only [hexFixed, List.mem_append, List.mem_singleton] at hc
    rcases hc with hc | hc
    · exact ih _ _ hc
    · subst hc
      exact isHexChar_hexDigit _ (Nat.mod_lt _ (by decide))

theorem sha1Hex_length (msg : List Nat) : (sha1Hex msg).length = 40 := by
  unfold sha1Hex
  rcases sha1 msg with ⟨a, b, c, d, e⟩
  simp [String.length, hexFixed_length]

theorem sha1Hex_isHex (msg : List Nat) : isHexString (sha1Hex msg) = true := by
  unfold sha1Hex
  rcases sha1 msg with ⟨a, b, c, d, e⟩
  simp only [isHexString, String.mk]
  rw [List.all_eq_true]
  intro c' hc'
  simp only [List.mem_append] at hc'
  rcases hc' with ((((h | h) | h) | h) | h) <;> exact hexFixed_all_hex _ _ _ h

/-! ## The key order is total and transitive; `sortRendered` sorts -/

theorem charListLt_trichotomy :
    ∀ x y : List Char, charListLt x y = true ∨ charListLt y x = true ∨ x = y := by
  intro x
  induction x with
  | nil =>
    intro y
    cases y with
    | nil => right; right; rfl
    | cons d ds => left; rfl
  | cons c cs ih =>
    intro y
    cases y with
    | nil => right; left; rfl
    | cons d ds =>
      by_cases hcd : c.toNat < d.toNat
      · left; simp [charListLt, hcd]
      · by_cases hdc : d.toNat < c.toNat
        · right; left; simp [charListLt, hdc]
        · have hce : c = d := by
            have h1 : c.toNat = d.toNat := by omega
            have h2 := Char.ofNat_toNat c
            have h3 := Char.ofNat_toNat d
            rw [← h2, ← h3, h1]
          subst hce
          rcases ih ds with h | h | h
          · left; simp [charListLt, h]
          · right; left; simp [charListLt, h]
          · right; right; rw [h]

theorem charListLt_asymm :
    ∀ x y : List Char, charListLt x y = true → charListLt y x = false := by
  intro x
  induction x with
  | nil =>
    intro y h
    cases y with
    | nil => rfl
    | cons d ds => rfl
  | cons c cs ih =>
    intro y h
    cases y with
    | nil => simp [charListLt] at h
    | cons d ds =>
      by_cases hcd : c.toNat < d.toNat
      · have hdc : ¬ d.toNat < c.toNat := by omega
        simp [charListLt, hdc, hcd]
      · by_cases hdc : d.toNat < c.toNat
        · simp [charListLt, hcd, hdc] at h
        · simp only [charListLt, if_neg hcd, if_neg hdc] at h
          simp only [charListLt, if_neg hcd, if_neg hdc]
          exact ih ds h

theorem charListLt_trans :
    ∀ x y z : List Char, charListLt x y = true → charListLt y z = true →
      charListLt x z = true := by
  intro x
  induction x with
  | nil =>
    intro y z hxy hyz
    cases y with
    | nil => simp [charListLt] at hxy
    | cons d ds =>
      cases z with
      | nil => simp [charListLt] at hyz
      | cons e es => rfl
  | cons c cs ih =>
    intro y z hxy hyz
    cases y with
    | nil => simp [charListLt] at hxy
    | cons d ds =>
      cases z with
      | nil => simp [charListLt] at hyz
      | cons e es =>
        by_cases hcd : c.toNat < d.toNat
        · by_cases hde : d.toNat < e.toNat
          · have hce : c.toNat < e.toNat := by omega
            simp [charListLt, hce]
          · by_cases hed : e.toNat < d.toNat
            · simp [charListLt, hde, hed] at hyz
            · have hde' : d.toNat = e.toNat := by omega
              have hce : c.toNat < e.toNat := by omega
              simp [charListLt, hce]
        · by_cases hdc : d.toNat < c.toNat
          · simp [charListLt, hcd, hdc] at hxy
          · have hcd' : c.toNat = d.toNat := by omega
            simp only [charListLt, if_neg hcd, if_neg hdc] at hxy
            by_cases hde : d.toNat < e.toNat
            · have hce : c.toNat < e.toNat := by omega
              simp [charListLt, hce]
            · by_cases hed : e.toNat < d.toNat
              · simp [charListLt, hde, hed] at hyz
              · simp only [charListLt, if_neg hde, if_neg hed] at hyz
                have hce : ¬ c.toNat < e.toNat := by omega
                have hec : ¬ e.toNat < c.toNat := by omega
                simp only [charListLt, if_neg hce, if_neg hec]
                exact ih ds es hxy hyz

theorem keyLeB_total (a b : String × String) :
    keyLeB a b = true ∨ keyLeB b a = true := by
  unfold keyLeB
  by_cases h : charListLt b.1.data a.1.data = true
  · right
    rw [charListLt_asymm _ _ h]
    rfl
  · left
    rw [bool_eq_false h]
    rfl

theorem keyLeB_trans (a b c : String × String) (hab : keyLeB a b = true)
    (hbc : keyLeB b c = true) : keyLeB a c = true := by
  unfold keyLeB at hab hbc ⊢
  simp only [Bool.not_eq_true'] at hab hbc ⊢
  by_cases hca : charListLt c.1.data a.1.data = true
  · exfalso
    rcases charListLt_trichotomy a.1.data b.1.data with h | h | h
    · have hcb := charListLt_trans _ _ _ hca h
      rw [hcb] at hbc
      simp at hbc
    · rw [h] at hab
      simp at hab
    · rw [h] at hca
      rw [hca] at hbc
      simp at hbc
  · exact bool_eq_false hca

/-- Every element of `insertSorted p l` is `p` or an element of
`l`. -/
theorem mem_insertSorted (p : String × String) :
    ∀ (l : List (String × String)) (x : String × String),
      x ∈ insertSorted p l → x = p ∨ x ∈ l := by
  intro l
  induction l with
  | nil => intro x hx; simp [insertSorted] at hx; left; exact hx
  | cons q qs ih =>
    intro x hx
    unfold insertSorted at hx
    by_cases hpq : keyLeB p q = true
    · rw [if_pos hpq] at hx
      simp only [List.mem_cons] at hx
      rcases hx with h | h | h
      · left; exact h
      · right; simp [h]
      · right; simp [h]
    · rw [if_neg hpq] at hx
      simp only [List.mem_cons] at hx
      rcases hx with h | h
      · right; simp [h]
      · rcases ih x h with h1 | h1
        · left; exact h1
        · right; simp [h1]

/-- Inserting into a key-sorted list keeps it key-sorted. -/
theorem pairwise_insertSorted (p : String × String) :
    ∀ l : List (String × String),
      l.Pairwise (fun a b => keyLeB a b = true) →
      (insertSorted p l).Pairwise (fun a b => keyLeB a b = true) := by
  intro l
  induction l with
  | nil => intro _; simp [insertSorted]
  | cons q qs ih =>
    intro h
    rw [List.pairwise_cons] at h
    obtain ⟨hq, hqs⟩ := h
    unfold insertSorted
    by_cases hpq : keyLeB p q = true
    · rw [if_pos hpq]
      rw [List.pairwise_cons]
      constructor
      · intro x hx
        simp only [List.mem_cons] at hx
        rcases hx with h | h
        · rw [h]; exact hpq
        · exact keyLeB_trans p q x hpq (hq x h)
      · rw [List.pairwise_cons]
        exact ⟨hq, hqs⟩
    · rw [if_neg hpq]
      rw [List.pairwise_cons]
      constructor
      · intro x hx
        rcases mem_insertSorted p qs x hx with h | h
        · rw [h]
          rcases keyLeB_total p q with h1 | h1
          · exact absurd h1 hpq
          · exact h1
        · exact hq x h
      · exact ih hqs

/-- Sorting facts: `sortRendered` returns a key-sorted list: every member is at most
every later member in the `sort_keys=True` order. -/
theorem sortRendered_pairwise :
    ∀ l : List (String × String),
      (sortRendered l).Pairwise (fun a b => keyLeB a b = true) := by
  intro l
  induction l with
  | nil => simp [sortRendered]
  | cons p ps ih => exact pairwise_insertSorted p (sortRendered ps) ih

/-! ## UTF-8 facts -/

theorem utf8Bytes_append (a b : String) :
    utf8Bytes (a ++ b) = utf8Bytes a ++ utf8Bytes b := by
  unfold utf8Bytes
  rw [String.data_append]
  induction a.data with
  | nil => rfl
  | cons c cs ih =>
    simp only [List.cons_append, List.foldr_cons, ih, List.append_assoc]

/-! ## Occurrences of the topic separator -/

theorem isPrefixOfEquivFact (l t : List Nat) :
    l.isPrefixOf t = true ↔ l <+: t := by
  exact List.isPrefixOf_iff_prefix

theorem infixFromPrefixFact {l t : List Nat} (h : l <+: t) : l <:+: t := by
  exact List.IsPrefix.isInfix h

namespace Monitor

theorem findSep_none_iff : ∀ xs : List Nat, findSep xs = none ↔ ¬ SEP <:+: xs := by
  intro xs
  induction xs with
  | nil =>
    simp only [findSep]
    constructor
    · intro _ hinf
      rw [List.infix_nil] at hinf
      exact absurd hinf (by decide)
    · intro _
      trivial
  | cons x xs ih =>
    by_cases hp : SEP.isPrefixOf (x :: xs) = true
    · simp only [findSep]
      rw [if_pos hp]
      constructor
      · intro h
        exact absurd h (by simp)
      · intro hni
        exfalso
        exact hni (infixFromPrefixFact (( isPrefixOfEquivFact _ _).mp hp))
    · simp only [findSep]
      rw [if_neg hp, Option.map_eq_none', ih]
      constructor
      · intro hni hinf
        rw [List.infix_cons_iff] at hinf
        rcases hinf with h | h
        · exact hp (( isPrefixOfEquivFact _ _).mpr h)
        · exact hni h
      · intro hni h
        exact hni (List.infix_cons_iff.mpr (Or.inr h))

theorem findSep_sound :
    ∀ (xs pre post : List Nat), findSep xs = some (pre, post) →
      xs = pre ++ SEP ++ post ∧ ¬ SEP <:+: pre := by
  intro xs
  induction xs with
  | nil => intro pre post h; simp [findSep] at h
  | cons x xs ih =>
    intro pre post h
    by_cases hp : SEP.isPrefixOf (x :: xs) = true
    · simp only [findSep] at h
      rw [if_pos hp] at h
      simp only [Option.some.injEq, Prod.mk.injEq] at h
      obtain ⟨hpre, hpost⟩ := h
      subst hpre
      subst hpost
      constructor
      · obtain ⟨t, ht⟩ := ( isPrefixOfEquivFact _ _).mp hp
        have hdrop : (SEP ++ t).drop 5 = t := List.drop_left SEP t
        rw [← ht, hdrop, List.nil_append]
      · intro hc
        rw [List.infix_nil] at hc
        exact absurd hc (by decide)
    · simp only [findSep] at h
      rw [if_neg hp, Option.map_eq_some'] at h
      obtain ⟨⟨pre', post'⟩, hfs, hmap⟩ := h
      simp only [Prod.mk.injEq] at hmap
      obtain ⟨hpre, hpost⟩ := hmap
      subst hpre
      subst hpost
      obtain ⟨hxs, hni⟩ := ih pre' post' hfs
      constructor
      · rw [List.cons_append, List.cons_append]
        rw [List.append_assoc] at hxs ⊢
        rw [← hxs]
      · intro hc
        rw [List.infix_cons_iff] at hc
        rcases hc with h | h
        · have h2 : (x :: pre') <+: (x :: xs) :=
            ⟨SEP ++ post', by rw [hxs]; simp⟩
          have h3 : SEP <+: (x :: xs) := List.IsPrefix.trans h h2
          exact hp (( isPrefixOfEquivFact _ _).mpr h3)
        · exact hni h

theorem monitor_strip_no_sep (xs : List Nat) (h : ¬ SEP <:+: xs) :
    monitor_strip xs = xs := by
  have hf : findSep xs = none := (findSep_none_iff xs).mpr h
  unfold monitor_strip
  rw [pySplit_of_findSep_none hf]
  rfl

theorem monitor_strip_single (xs pre post : List Nat)
    (hf : findSep xs = some (pre, post)) (hp : ¬ SEP <:+: post) :
    monitor_strip xs = post := by
  have hf2 : findSep post = none := (findSep_none_iff post).mpr hp
  unfold monitor_strip
  rw [pySplit_of_findSep_some hf, pySplit_of_findSep_none hf2]
  rfl

end Monitor

/-! ## Relay transformation lemmas -/

namespace Relay

theorem headerFields_set (x : List (String × JVal))
    (fs : List (String × JVal)) :
    headerFields (JVal.jobj (dictSet "header" (JVal.jobj x) fs)) = some x := by
  show (match dictGet "header" (dictSet "header" (JVal.jobj x) fs) with
        | some (JVal.jobj h) => some h
        | _ => none) = some x
  rw [dictGet_set_self]

theorem headerFields_of_get {fs : List (String × JVal)}
    {hdr : List (String × JVal)}
    (hh : dictGet "header" fs = some (JVal.jobj hdr)) :
    headerFields (JVal.jobj fs) = some hdr := by
  show (match dictGet "header" fs with
        | some (JVal.jobj h) => some h
        | _ => none) = some hdr
  rw [hh]

theorem headerHasKey_of_fields {j : JVal} {h : List (String × JVal)}
    (k : String) (hf : headerFields j = some h) :
    headerHasKey j k = dictMem k h := by
  unfold headerHasKey
  rw [hf]

theorem headerGet_of_fields {j : JVal} {h : List (String × JVal)}
    (k : String) (hf : headerFields j = some h) :
    headerGet j k = dictGet k h := by
  unfold headerGet
  rw [hf]

theorem relay_transform_sanitizes
    (st : State) (now : Nat) (fresh : String) (addr : Nat)
    (json json' : JVal) (st' : State)
    (h : relay_transform st now fresh addr json = some (st', json')) :
    headerHasKey json' "uploaderIP" = false ∧
    headerHasKey json' "uploaderID" = headerHasKey json "uploaderID" ∧
    (∀ v, headerGet json' "uploaderID" = some v →
      ∃ hx : String, v = .jstr hx ∧ hx.length = 40 ∧ isHexString hx = true) := by
  cases json with
  | jnull => exact absurd h (by simp [relay_transform])
  | jbool b => exact absurd h (by simp [relay_transform])
  | jnum n => exact absurd h (by simp [relay_transform])
  | jstr s => exact absurd h (by simp [relay_transform])
  | jarr xs => exact absurd h (by simp [relay_transform])
  | jobj fields =>
    cases hh : dictGet "header" fields with
    | none => simp [relay_transform, hh] at h
    | some hv =>
      cases hv with
      | jnull => simp [relay_transform, hh] at h
      | jbool b => simp [relay_transform, hh] at h
      | jnum n => simp [relay_transform, hh] at h
      | jstr s => simp [relay_transform, hh] at h
      | jarr xs => simp [relay_transform, hh] at h
      | jobj header =>
        have hne : ("uploaderID" == "uploaderIP") = false := by decide
        cases hu : dictGet "uploaderID" header with
        | none =>
          simp only [relay_transform, hh, hu, Option.some.injEq,
            Prod.mk.injEq] at h
          obtain ⟨hst, hjson⟩ := h
          subst hjson
          have hmem : dictMem "uploaderID" header = false := by
            have h1 := dictGet_isSome_eq_dictMem "uploaderID" header
            rw [hu] at h1
            exact h1.symm
          have hhf := headerFields_set
            (if dictMem "uploaderIP" header = true then
              dictDel "uploaderIP" header else header) fields
          refine ⟨?_, ?_, ?_⟩
          · rw [headerHasKey_of_fields _ hhf]
            by_cases hip : dictMem "uploaderIP" header = true
            · rw [if_pos hip]
              exact dictMem_del_self _ _
            · rw [if_neg hip]
              exact bool_eq_false hip
          · rw [headerHasKey_of_fields _ hhf,
              headerHasKey_of_fields _ (headerFields_of_get hh)]
            by_cases hip : dictMem "uploaderIP" header = true
            · rw [if_pos hip]
              rw [dictMem_del_ne _ _ hne]
            · rw [if_neg hip]
          · intro v hv
            rw [headerGet_of_fields _ hhf] at hv
            by_cases hip : dictMem "uploaderIP" header = true
            · rw [if_pos hip, dictGet_del_ne _ _ hne,
                dictGet_eq_none_of_not_mem _ _ hmem] at hv
              exact absurd hv (by simp)
            · rw [if_neg hip, dictGet_eq_none_of_not_mem _ _ hmem] at hv
              exact absurd hv (by simp)
        | some uv =>
          cases uv with
          | jnull => simp [relay_transform, hh, hu] at h
          | jbool b => simp [relay_transform, hh, hu] at h
          | jnum n => simp [relay_transform, hh, hu] at h
          | jarr xs => simp [relay_transform, hh, hu] at h
          | jobj o => simp [relay_transform, hh, hu] at h
          | jstr up =>
            rcases hscr : scramble_uploader st now fresh up addr with ⟨st₂, dg⟩
            simp only [relay_transform, hh, hu, hscr, Option.some.injEq,
              Prod.mk.injEq] at h
            obtain ⟨hst, hjson⟩ := h
            subst hjson
            have hdg : dg = sha1Hex (utf8Bytes
                (pyReprStr (if now - st.uploader_nonce_timestamp >
                    REGENERATE_UPLOADER_NONCE_INTERVAL then
                  generate_uploader_nonce fresh now else st).uploader_nonce ++
                  "-" ++ encodeMethodRepr addr)) := by
              unfold scramble_uploader at hscr
              simp only [Prod.mk.injEq] at hscr
              exact hscr.2.symm
            have hhf := headerFields_set
              (if dictMem "uploaderIP"
                  (dictSet "uploaderID" (JVal.jstr dg) header) = true then
                dictDel "uploaderIP" (dictSet "uploaderID" (JVal.jstr dg) header)
              else dictSet "uploaderID" (JVal.jstr dg) header) fields
            refine ⟨?_, ?_, ?_⟩
            · rw [headerHasKey_of_fields _ hhf]
              by_cases hip : dictMem "uploaderIP"
                  (dictSet "uploaderID" (JVal.jstr dg) header) = true
              · rw [if_pos hip]
                exact dictMem_del_self _ _
              · rw [if_neg hip]
                exact bool_eq_false hip
            · rw [headerHasKey_of_fields _ hhf,
                headerHasKey_of_fields _ (headerFields_of_get hh)]
              have hmem : dictMem "uploaderID" header = true :=
                dictMem_of_get_some _ _ _ hu
              rw [hmem]
              by_cases hip : dictMem "uploaderIP"
                  (dictSet "uploaderID" (JVal.jstr dg) header) = true
              · rw [if_pos hip, dictMem_del_ne _ _ hne, dictMem_set_self]
              · rw [if_neg hip, dictMem_set_self]
            · intro v hv
              rw [headerGet_of_fields _ hhf] at hv
              have hget : dictGet "uploaderID"
                  (dictSet "uploaderID" (JVal.jstr dg) header) =
                  some (JVal.jstr dg) := dictGet_set_self _ _ _
              by_cases hip : dictMem "uploaderIP"
                  (dictSet "uploaderID" (JVal.jstr dg) header) = true
              · rw [if_pos hip, dictGet_del_ne _ _ hne, hget] at hv
                refine ⟨dg, ?_, ?_, ?_⟩
                · simpa using hv.symm
                · rw [hdg]; exact sha1Hex_length _
                · rw [hdg]; exact sha1Hex_isHex _
              · rw [if_neg hip, hget] at hv
                refine ⟨dg, ?_, ?_, ?_⟩
                · simpa using hv.symm
                · rw [hdg]; exact sha1Hex_length _
                · rw [hdg]; exact sha1Hex_isHex _


/-- The tallies of a single `relay_worker` call: at most one of
`duplicate` and `outbound` is incremented, a discarded frame
increments `outbound` only when something was sent, and `duplicate`
only in the duplicate branch. -/
theorem relay_worker_tally_le
    (decompress : List Nat → Option (List Nat))
    (loads : List Nat → Option JVal) (dupMax : Nat) (isDup : JVal → Bool)
    (compress : List Nat → List Nat) (st : State) (now : Nat)
    (fresh : String) (addr : Nat) (message : List Nat) :
    ((relay_worker decompress loads dupMax isDup compress st now fresh addr
      message).1.dupTally +
     (relay_worker decompress loads dupMax isDup compress st now fresh addr
      message).1.outTally) ≤ 1 := by
  unfold relay_worker
  repeat' split
  all_goals simp

/-- Every producible worker outcome increments at most one counter. -/
theorem isWorkerOutcome_tally_le (o : WorkerOutcome)
    (h : IsWorkerOutcome o) : o.dupTally + o.outTally ≤ 1 := by
  obtain ⟨dec, loads, dm, isd, comp, st, now, fresh, addr, msg, st', hw⟩ := h
  have h1 := relay_worker_tally_le dec loads dm isd comp st now fresh addr msg
  rw [hw] at h1
  exact h1

/-- The invariant the receive loop maintains. -/
theorem step_preserves (s s' : BusState) (hstep : Step s s')
    (h1 : s.outbound + s.duplicate + s.pending.length ≤ s.inbound)
    (h2 : ∀ o ∈ s.pending, o.dupTally + o.outTally ≤ 1) :
    (s'.outbound + s'.duplicate + s'.pending.length ≤ s'.inbound) ∧
    (∀ o ∈ s'.pending, o.dupTally + o.outTally ≤ 1) := by
  cases hstep with
  | recv o ho =>
    constructor
    · simp only [List.length_cons]
      omega
    · intro o' ho'
      simp only [List.mem_cons] at ho'
      rcases ho' with ho' | ho'
      · subst ho'
        exact isWorkerOutcome_tally_le o' ho
      · exact h2 o' ho'
  | work l r o hp =>
    have hlen : s.pending.length = l.length + 1 + r.length := by
      rw [hp]
      simp [List.length_append]
      omega
    have hto := h2 o (by rw [hp]; simp)
    constructor
    · simp only [List.length_append]
      omega
    · intro o' ho'
      apply h2
      rw [hp]
      simp only [List.mem_append, List.mem_cons] at ho' ⊢
      tauto

/-- Every reachable state of the receive loop satisfies the counter
invariant. -/
theorem reachable_inv (s : BusState) (h : Reachable s) :
    (s.outbound + s.duplicate + s.pending.length ≤ s.inbound) ∧
    (∀ o ∈ s.pending, o.dupTally + o.outTally ≤ 1) := by
  induction h with
  | refl =>
    constructor
    · simp [initBus]
    · intro o ho
      simp [initBus] at ho
  | tail hsteps hstep ih =>
    exact step_preserves _ _ hstep ih.1 ih.2

end Relay

/-! ## The branches of `relay_worker` and `monitor_worker` -/

namespace Relay

theorem relay_worker_of_decompress_none
    (decompress : List Nat → Option (List Nat))
    (loads : List Nat → Option JVal) (dupMax : Nat) (isDup : JVal → Bool)
    (compress : List Nat → List Nat) (st : State) (now : Nat)
    (fresh : String) (addr : Nat) (message : List Nat)
    (h : decompress message = none) :
    relay_worker decompress loads dupMax isDup compress st now fresh addr
      message = (⟨none, 0, 0⟩, st) := by
  simp only [relay_worker, h]

theorem relay_worker_of_duplicate
    (decompress : List Nat → Option (List Nat))
    (loads : List Nat → Option JVal) (dupMax : Nat) (isDup : JVal → Bool)
    (compress : List Nat → List Nat) (st : State) (now : Nat)
    (fresh : String) (addr : Nat) (message t : List Nat) (json : JVal)
    (h1 : decompress message = some t) (h2 : loads t = some json)
    (h3 : dupMax ≠ 0) (h4 : isDup json = true) :
    relay_worker decompress loads dupMax isDup compress st now fresh addr
      message = (⟨none, 1, 0⟩, st) := by
  simp only [relay_worker, h1, h2]
  rw [if_pos ⟨h3, h4⟩]

theorem relay_worker_of_transform
    (decompress : List Nat → Option (List Nat))
    (loads : List Nat → Option JVal) (dupMax : Nat) (isDup : JVal → Bool)
    (compress : List Nat → List Nat) (st : State) (now : Nat)
    (fresh : String) (addr : Nat) (message t : List Nat) (json json' : JVal)
    (st' : State)
    (h1 : decompress message = some t) (h2 : loads t = some json)
    (h3 : ¬ (dupMax ≠ 0 ∧ isDup json = true))
    (h4 : relay_transform st now fresh addr json = some (st', json')) :
    relay_worker decompress loads dupMax isDup compress st now fresh addr
      message =
      (⟨some (compress (utf8Bytes (dumps json'))), 0, 1⟩, st') := by
  simp only [relay_worker, h1, h2]
  rw [if_neg h3]
  simp only [h4]

theorem relay_worker_sent_inv
    (decompress : List Nat → Option (List Nat))
    (loads : List Nat → Option JVal) (dupMax : Nat) (isDup : JVal → Bool)
    (compress : List Nat → List Nat) (st : State) (now : Nat)
    (fresh : String) (addr : Nat) (message : List Nat)
    (o : WorkerOutcome) (stOut : State) (f : List Nat)
    (h : relay_worker decompress loads dupMax isDup compress st now fresh
      addr message = (o, stOut))
    (hf : o.sent = some f) :
    ∃ (t : List Nat) (json : JVal) (json' : JVal),
      decompress message = some t ∧ loads t = some json ∧
      relay_transform st now fresh addr json = some (stOut, json') ∧
      f = compress (utf8Bytes (dumps json')) := by
  unfold relay_worker at h
  cases hdec : decompress message with
  | none =>
    rw [hdec] at h
    simp only [Prod.mk.injEq] at h
    rw [← h.1] at hf
    simp at hf
  | some t =>
    rw [hdec] at h
    simp only [] at h
    cases hl : loads t with
    | none =>
      rw [hl] at h
      simp only [Prod.mk.injEq] at h
      rw [← h.1] at hf
      simp at hf
    | some json =>
      rw [hl] at h
      simp only [] at h
      by_cases hdup : dupMax ≠ 0 ∧ isDup json = true
      · rw [if_pos hdup] at h
        simp only [Prod.mk.injEq] at h
        rw [← h.1] at hf
        simp at hf
      · rw [if_neg hdup] at h
        cases htr : relay_transform st now fresh addr json with
        | none =>
          rw [htr] at h
          simp only [Prod.mk.injEq] at h
          rw [← h.1] at hf
          simp at hf
        | some p =>
          obtain ⟨st', json'⟩ := p
          rw [htr] at h
          simp only [Prod.mk.injEq] at h
          obtain ⟨ho, hst⟩ := h
          rw [← ho] at hf
          simp only [Option.some.injEq] at hf
          refine ⟨t, json, json', rfl, hl, ?_, hf.symm⟩
          rw [← hst]
          exact htr

theorem relay_worker_dupTally_zero
    (decompress : List Nat → Option (List Nat))
    (loads : List Nat → Option JVal) (isDup : JVal → Bool)
    (compress : List Nat → List Nat) (st : State) (now : Nat)
    (fresh : String) (addr : Nat) (message : List Nat) :
    (relay_worker decompress loads 0 isDup compress st now fresh addr
      message).1.dupTally = 0 := by
  unfold relay_worker
  repeat' split
  all_goals simp_all

end Relay

namespace Monitor

/-- Every call of `monitor_worker` raises before reaching a database
write: the `bytes + str` concatenation that builds `software_id`
(line 207) has no meaning in Python 3. -/
theorem monitor_worker_raised
    (decompress : List Nat → Option (List Nat))
    (loads : List Nat → Option JVal) (dupMax : Nat) (isDup : JVal → Bool)
    (message : List Nat) :
    monitor_worker decompress loads dupMax isDup message = .raised := by
  unfold monitor_worker
  repeat' split
  all_goals try rfl
  all_goals simp_all [bytesAddStr]

end Monitor

/-! ## One-step serialisation facts -/

theorem dumps_jobj (fs : List (String × JVal)) :
    dumps (JVal.jobj fs) =
      "\x7b" ++
        String.intercalate ", "
          ((sortRendered (dumpsFields fs)).map renderMember) ++
      "\x7d" := by
  rw [dumps]

theorem isPrefixOf_cons_ne {a b : Nat} (as bs : List Nat)
    (h : (a == b) = false) :
    (a :: as).isPrefixOf (b :: bs) = false := by
  simp [List.isPrefixOf, h]

/-- A JSON serialisation (which starts with the byte `0x7b` for an
object) never starts with the bytes of a topic beginning in `h`. -/
theorem topic_not_prefix_of_json (topicRest : List Char) (s : String) :
    (utf8Bytes (String.mk ('h' :: topicRest))).isPrefixOf
      (utf8Bytes ("\x7b" ++ s)) = false := by
  rw [utf8Bytes_append]
  show ((104 : Nat) :: utf8Bytes (String.mk topicRest)).isPrefixOf
    ((123 : Nat) :: utf8Bytes s) = false
  exact isPrefixOf_cons_ne _ _ (by decide)

/-! ## The claims -/

/-- C1: the spec says the published pseudonym is
`SHA1(nonce || ":" || uploaderID)`.  The source instead hashes the
f-string `f"{self.uploader_nonce!r}-{uploader.encode}"`, which
interpolates the repr of the nonce and the repr of the *bound method*
`uploader.encode` (never called), so the digest does not depend on
the uploader value at all — only on the nonce and on the address of
the uploader string object — and differs from the intended digest at
the concrete scenario-1 input. -/
theorem c1_scramble_ignores_uploader :
    (∀ u1 u2 : String,
      (Relay.scramble_uploader testState 1700000100 "fresh" u1 testAddr).2 =
      (Relay.scramble_uploader testState 1700000100 "fresh" u2 testAddr).2) ∧
    (Relay.scramble_uploader testState 1700000100 "fresh" "Cmdr-Jameson"
      testAddr).2 ≠
      Relay.spec_scramble_uploader testState.uploader_nonce "Cmdr-Jameson" := by
  constructor
  · intro u1 u2
    rfl
  · decide

/-- C3: the spec says two uploads with the same `uploaderID` in the
same 12-hour nonce window get the same pseudonym.  In the source the
pseudonym depends on the address of the uploader string object, which
differs between the two worker calls, so the two pseudonyms differ
even though the nonce state is unchanged (both calls are inside the
window and perform no rotation). -/
theorem c3_same_window_pseudonyms_differ :
    (Relay.scramble_uploader testState 1700000100 "fresh" "Cmdr-Jameson"
      testAddr).1 = testState ∧
    (Relay.scramble_uploader testState 1700000200 "fresh" "Cmdr-Jameson"
      (testAddr + 8)).1 = testState ∧
    (Relay.scramble_uploader testState 1700000100 "fresh" "Cmdr-Jameson"
      testAddr).2 ≠
    (Relay.scramble_uploader testState 1700000200 "fresh" "Cmdr-Jameson"
      (testAddr + 8)).2 := by
  refine ⟨rfl, rfl, by decide⟩

/-- C4: when the duplicate cache is enabled
(`RELAY_DUPLICATE_MAX_MINUTES` nonzero) and reports the parsed
envelope as a duplicate, `relay_worker` tallies `duplicate` once,
sends nothing on the public bus, and does not tally `outbound`. -/
theorem c4_duplicate_frame_discarded
    (decompress : List Nat → Option (List Nat))
    (loads : List Nat → Option JVal) (dupMax : Nat) (isDup : JVal → Bool)
    (compress : List Nat → List Nat) (st : Relay.State) (now : Nat)
    (fresh : String) (addr : Nat) (message t : List Nat) (json : JVal)
    (h1 : decompress message = some t) (h2 : loads t = some json)
    (h3 : dupMax ≠ 0) (h4 : isDup json = true) :
    Relay.relay_worker decompress loads dupMax isDup compress st now fresh
      addr message = (⟨none, 1, 0⟩, st) :=
  Relay.relay_worker_of_duplicate decompress loads dupMax isDup compress st
    now fresh addr message t json h1 h2 h3 h4

/-- Witness for C4 at the scenario-1 envelope. -/
theorem c4_duplicate_frame_discarded_witness :
    Relay.relay_worker cDecompress cLoads 15 cIsDupTrue cCompress testState
      1700000100 "fresh" testAddr [7] = (⟨none, 1, 0⟩, testState) :=
  c4_duplicate_frame_discarded cDecompress cLoads 15 cIsDupTrue cCompress
    testState 1700000100 "fresh" testAddr [7] [0] testEnvelope rfl rfl
    (by decide) rfl

/-- C7: the claim says the Monitor upserts a `softwares` row for
every frame.  In Python 3 the worker raises `TypeError` while
computing `software_id` (`bytes + str` at source line 207), before
the duplicate check and before any database write, so no `softwares`
row is ever upserted; even in the dead code after that line, the
duplicate branch returns before the `softwares` upsert. -/
theorem c7_monitor_never_reaches_upserts
    (decompress : List Nat → Option (List Nat))
    (loads : List Nat → Option JVal) (dupMax : Nat) (isDup : JVal → Bool)
    (message : List Nat) :
    Monitor.monitor_worker decompress loads dupMax isDup message =
      .raised :=
  Monitor.monitor_worker_raised decompress loads dupMax isDup message

/-- C9: in every reachable state of the Relay receive loop,
`inbound ≥ outbound + duplicate`: `inbound` is tallied once per
received frame before its worker is spawned, and each worker tallies
at most one of `duplicate` and `outbound`. -/
theorem c9_stats_invariant (s : Relay.BusState) (h : Relay.Reachable s) :
    s.outbound + s.duplicate ≤ s.inbound := by
  have h1 := Relay.reachable_inv s h
  omega

/-- Witness for C9: the state after receiving one frame whose worker
has not yet run. -/
theorem c9_stats_invariant_witness :
    (⟨1, 0, 0, [⟨none, 0, 0⟩], []⟩ : Relay.BusState).outbound +
    (⟨1, 0, 0, [⟨none, 0, 0⟩], []⟩ : Relay.BusState).duplicate ≤
    (⟨1, 0, 0, [⟨none, 0, 0⟩], []⟩ : Relay.BusState).inbound :=
  c9_stats_invariant _
    (Relation.ReflTransGen.single
      (Relay.Step.recv Relay.initBus ⟨none, 0, 0⟩
        ⟨cDecompressFail, cLoadsFail, 0, cIsDupFalse, cCompress, testState,
          0, "f", 0, [], testState, rfl⟩))

/-- C10: the Relay worker inflates the raw frame without stripping a
topic prefix: on a frame of the form `<topic> |-| <bytes>` whose
prefix makes it an invalid zlib stream, `zlib.decompress` raises, the
worker sends nothing and tallies neither `duplicate` nor `outbound`,
while the receive loop has already tallied `inbound` for the frame. -/
theorem c10_topic_prefixed_frame_lost
    (decompress : List Nat → Option (List Nat))
    (loads : List Nat → Option JVal) (dupMax : Nat) (isDup : JVal → Bool)
    (compress : List Nat → List Nat) (st : Relay.State) (now : Nat)
    (fresh : String) (addr : Nat) (topic body frame : List Nat)
    (s : Relay.BusState)
    (hframe : frame = topic ++ Monitor.SEP ++ body)
    (hdec : decompress frame = none) :
    Relay.relay_worker decompress loads dupMax isDup compress st now fresh
      addr frame = (⟨none, 0, 0⟩, st) ∧
    Relay.Step s ⟨s.inbound + 1, s.outbound, s.duplicate,
      ⟨none, 0, 0⟩ :: s.pending, s.published⟩ ∧
    (∃ s₂ : Relay.BusState,
      Relay.Step ⟨s.inbound + 1, s.outbound, s.duplicate,
        ⟨none, 0, 0⟩ :: s.pending, s.published⟩ s₂ ∧
      s₂.inbound = s.inbound + 1 ∧ s₂.outbound = s.outbound ∧
      s₂.duplicate = s.duplicate ∧ s₂.pending = s.pending ∧
      s₂.published = s.published) := by
  have hw := Relay.relay_worker_of_decompress_none decompress loads dupMax
    isDup compress st now fresh addr frame hdec
  refine ⟨hw, ?_, ?_⟩
  · exact Relay.Step.recv s ⟨none, 0, 0⟩
      ⟨decompress, loads, dupMax, isDup, compress, st, now, fresh, addr,
        frame, st, hw⟩
  · refine ⟨⟨s.inbound + 1, s.outbound + 0, s.duplicate + 0,
      [] ++ s.pending, s.published ++ []⟩,
      Relay.Step.work _ [] s.pending ⟨none, 0, 0⟩ rfl, rfl, rfl, rfl, rfl,
      ?_⟩
    simp

/-- Witness for C10 on a concrete topic-prefixed frame. -/
theorem c10_topic_prefixed_frame_lost_witness :
    Relay.relay_worker cDecompressFail cLoads 15 cIsDupFalse cCompress
      testState 1700000100 "fresh" testAddr
      ([116] ++ Monitor.SEP ++ [1]) = (⟨none, 0, 0⟩, testState) :=
  (c10_topic_prefixed_frame_lost cDecompressFail cLoads 15 cIsDupFalse
    cCompress testState 1700000100 "fresh" testAddr [116] [1] _
    Relay.initBus rfl rfl).1

/-- C2: whenever `relay_worker` publishes a frame on the public bus,
the frame is the compression of the serialised transformed envelope,
whose header carries no `uploaderIP`, carries `uploaderID` exactly
when the incoming envelope did, and whose `uploaderID`, when present,
is a string of exactly 40 lowercase hexadecimal characters. -/
theorem c2_published_envelope_sanitized
    (decompress : List Nat → Option (List Nat))
    (loads : List Nat → Option JVal) (dupMax : Nat) (isDup : JVal → Bool)
    (compress : List Nat → List Nat) (st : Relay.State) (now : Nat)
    (fresh : String) (addr : Nat) (message : List Nat)
    (o : Relay.WorkerOutcome) (stOut : Relay.State) (f : List Nat)
    (h : Relay.relay_worker decompress loads dupMax isDup compress st now
      fresh addr message = (o, stOut))
    (hf : o.sent = some f) :
    ∃ (t : List Nat) (json json' : JVal),
      decompress message = some t ∧ loads t = some json ∧
      Relay.relay_transform st now fresh addr json = some (stOut, json') ∧
      f = compress (utf8Bytes (dumps json')) ∧
      headerHasKey json' "uploaderIP" = false ∧
      headerHasKey json' "uploaderID" = headerHasKey json "uploaderID" ∧
      (∀ v, headerGet json' "uploaderID" = some v →
        ∃ hx : String, v = .jstr hx ∧ hx.length = 40 ∧
          isHexString hx = true) := by
  obtain ⟨t, json, json', h1, h2, h3, h4⟩ :=
    Relay.relay_worker_sent_inv decompress loads dupMax isDup compress st
      now fresh addr message o stOut f h hf
  obtain ⟨p1, p2, p3⟩ :=
    Relay.relay_transform_sanitizes st now fresh addr json json' stOut h3
  exact ⟨t, json, json', h1, h2, h3, h4, p1, p2, p3⟩

/-- Witness for C2 at the scenario-1 envelope. -/
theorem c2_published_envelope_sanitized_witness :
    ∃ (t : List Nat) (json json' : JVal),
      cDecompress [7] = some t ∧ cLoads t = some json ∧
      Relay.relay_transform testState 1700000100 "fresh" testAddr json =
        some (testState, json') ∧
      cCompress (utf8Bytes (dumps testTransformed)) =
        cCompress (utf8Bytes (dumps json')) ∧
      headerHasKey json' "uploaderIP" = false ∧
      headerHasKey json' "uploaderID" = headerHasKey json "uploaderID" ∧
      (∀ v, headerGet json' "uploaderID" = some v →
        ∃ hx : String, v = .jstr hx ∧ hx.length = 40 ∧
          isHexString hx = true) :=
  c2_published_envelope_sanitized cDecompress cLoads 15 cIsDupFalse
    cCompress testState 1700000100 "fresh" testAddr [7]
    ⟨some (cCompress (utf8Bytes (dumps testTransformed))), 0, 1⟩ testState
    (cCompress (utf8Bytes (dumps testTransformed))) rfl rfl

/-- Counterexample for C5 as stated: at the scenario-1 envelope the
Relay publishes the bare compressed envelope; the frame does not
begin with the schema ID (the frame starts with the byte `0x7b` of
the JSON object, not with the `h` of the schema URI), so the frame
carries no topic prefix. -/
theorem c5_counterexample :
    Relay.relay_worker cDecompress cLoads 15 cIsDupFalse cCompress testState
      1700000100 "fresh" testAddr [7] =
      (⟨some (utf8Bytes (dumps testTransformed)), 0, 1⟩, testState) ∧
    (utf8Bytes "https://eddn.edcd.io/schemas/commodity/3").isPrefixOf
      (utf8Bytes (dumps testTransformed)) = false := by
  constructor
  · rfl
  · have h0 : dumps testTransformed =
        "\x7b" ++
          String.intercalate ", "
            ((sortRendered (dumpsFields testTransformedFields)).map
              renderMember) ++
        "\x7d" := dumps_jobj testTransformedFields
    rw [h0, String.append_assoc]
    exact topic_not_prefix_of_json
      ("ttps://eddn.edcd.io/schemas/commodity/3").data _

/-- C5 as amended: for every frame that decompresses, parses and
transforms, the Relay re-serialises the transformed envelope with
`sort_keys=True` (object members are rendered in ascending key
order), compresses it, and publishes the compressed envelope as the
*entire* frame — without a topic prefix — tallying `outbound`
once. -/
theorem c5_republishes_compressed_whole_frame
    (decompress : List Nat → Option (List Nat))
    (loads : List Nat → Option JVal) (dupMax : Nat) (isDup : JVal → Bool)
    (compress : List Nat → List Nat) (st : Relay.State) (now : Nat)
    (fresh : String) (addr : Nat) (message t : List Nat)
    (json json' : JVal) (st' : Relay.State)
    (h1 : decompress message = some t) (h2 : loads t = some json)
    (h3 : ¬ (dupMax ≠ 0 ∧ isDup json = true))
    (h4 : Relay.relay_transform st now fresh addr json = some (st', json')) :
    Relay.relay_worker decompress loads dupMax isDup compress st now fresh
      addr message =
      (⟨some (compress (utf8Bytes (dumps json'))), 0, 1⟩, st') ∧
    (∀ l : List (String × String),
      (sortRendered l).Pairwise (fun a b => keyLeB a b = true)) :=
  ⟨Relay.relay_worker_of_transform decompress loads dupMax isDup compress
    st now fresh addr message t json json' st' h1 h2 h3 h4,
   sortRendered_pairwise⟩

/-- Witness for the amended C5 at the scenario-1 envelope. -/
theorem c5_republishes_compressed_whole_frame_witness :
    Relay.relay_worker cDecompress cLoads 15 cIsDupFalse cCompress testState
      1700000100 "fresh" testAddr [7] =
      (⟨some (cCompress (utf8Bytes (dumps testTransformed))), 0, 1⟩,
        testState) :=
  (c5_republishes_compressed_whole_frame cDecompress cLoads 15 cIsDupFalse
    cCompress testState 1700000100 "fresh" testAddr [7] [0] testEnvelope
    testTransformed testState rfl rfl (by decide) rfl).1

/-- C6: with `RELAY_DUPLICATE_MAX_MINUTES = 0` the duplicate check is
skipped entirely: the Relay never tallies `duplicate`, every frame
that decompresses, parses and transforms is republished, and the
Monitor never classifies a message under the `DUPLICATE MESSAGE`
schema key. -/
theorem c6_zero_window_disables_duplicate_handling
    (decompress : List Nat → Option (List Nat))
    (loads : List Nat → Option JVal) (isDup : JVal → Bool)
    (compress : List Nat → List Nat) (st : Relay.State) (now : Nat)
    (fresh : String) (addr : Nat) (message t : List Nat)
    (json json' : JVal) (st' : Relay.State)
    (mdec : List Nat → Option (List Nat)) (mloads : List Nat → Option JVal)
    (misDup : JVal → Bool) (mmessage : List Nat)
    (h1 : decompress message = some t) (h2 : loads t = some json)
    (h4 : Relay.relay_transform st now fresh addr json = some (st', json')) :
    (∀ msg2 : List Nat,
      (Relay.relay_worker decompress loads 0 isDup compress st now fresh
        addr msg2).1.dupTally = 0) ∧
    Relay.relay_worker decompress loads 0 isDup compress st now fresh addr
      message =
      (⟨some (compress (utf8Bytes (dumps json'))), 0, 1⟩, st') ∧
    (∀ k, Monitor.monitor_worker mdec mloads 0 misDup mmessage ≠
      .dupOnly k) := by
  refine ⟨?_, ?_, ?_⟩
  · intro msg2
    exact Relay.relay_worker_dupTally_zero decompress loads isDup compress
      st now fresh addr msg2
  · exact Relay.relay_worker_of_transform decompress loads 0 isDup compress
      st now fresh addr message t json json' st' h1 h2 (by simp) h4
  · intro k
    rw [Monitor.monitor_worker_raised]
    intro hc
    exact Monitor.Outcome.noConfusion hc

/-- Witness for C6 at the scenario-1 envelope. -/
theorem c6_zero_window_disables_duplicate_handling_witness :
    Relay.relay_worker cDecompress cLoads 0 cIsDupTrue cCompress testState
      1700000100 "fresh" testAddr [7] =
      (⟨some (cCompress (utf8Bytes (dumps testTransformed))), 0, 1⟩,
        testState) :=
  (c6_zero_window_disables_duplicate_handling cDecompress cLoads cIsDupTrue
    cCompress testState 1700000100 "fresh" testAddr [7] [0] testEnvelope
    testTransformed testState cDecompress cLoads cIsDupTrue [7]
    rfl rfl rfl).2.1

/-- Counterexample for C8 as stated: on a frame in which the
separator occurs twice — here `<topic> |-| <b1> |-| <b2>` where the
compressed payload `<b1> |-| <b2>` itself contains the separator
bytes — the Monitor takes only the bytes up to the second occurrence
(`Python split` field 1), not the whole segment after the first
separator. -/
theorem c8_counterexample :
    Monitor.monitor_strip
      ([116] ++ Monitor.SEP ++ ([1] ++ Monitor.SEP ++ [2])) = [1] ∧
    ([1] : List Nat) ≠ [1] ++ Monitor.SEP ++ [2] := by
  decide

/-- C8 as amended: the Monitor takes `split(b" |-| ")[1]` when the
separator occurs and `[0]` otherwise.  Hence: a frame without the
separator is taken whole; on a frame with at least one occurrence,
writing it as `pre ++ SEP ++ post` for the first occurrence, the
compressed envelope is `post` provided `post` contains no further
occurrence; and `findSep` characterises containment. -/
theorem c8_strip_takes_second_split_field :
    (∀ xs : List Nat, ¬ Monitor.SEP <:+: xs →
      Monitor.monitor_strip xs = xs) ∧
    (∀ xs pre post : List Nat, Monitor.findSep xs = some (pre, post) →
      xs = pre ++ Monitor.SEP ++ post ∧ ¬ Monitor.SEP <:+: pre) ∧
    (∀ xs pre post : List Nat, Monitor.findSep xs = some (pre, post) →
      ¬ Monitor.SEP <:+: post → Monitor.monitor_strip xs = post) ∧
    (∀ xs : List Nat, Monitor.findSep xs = none ↔ ¬ Monitor.SEP <:+: xs) :=
  ⟨Monitor.monitor_strip_no_sep, Monitor.findSep_sound,
   Monitor.monitor_strip_single, Monitor.findSep_none_iff⟩

/-- Witness for the amended C8: a singly-prefixed frame is stripped
to the payload, a bare frame is passed through whole. -/
theorem c8_strip_takes_second_split_field_witness :
    Monitor.monitor_strip ([116] ++ Monitor.SEP ++ [9]) = [9] ∧
    Monitor.monitor_strip [5, 6] = [5, 6] := by
  constructor
  · exact c8_strip_takes_second_split_field.2.2.1 _ [116] [9] (by decide)
      ((c8_strip_takes_second_split_field.2.2.2 [9]).mp (by decide))
  · exact c8_strip_takes_second_split_field.1 [5, 6]
      ((c8_strip_takes_second_split_field.2.2.2 [5, 6]).mp (by decide))

end EDDN
